import Mathlib

/-!
Verification of the 1D laser-diode simulation data layer (`laser_data.py`,
`units.py`).  The Python state class `LaserData` is embedded shallowly:
arrays become `List ℚ`, the parameter dictionaries become total functions
`Param → Option (List ℚ)`, and the external collaborators declared out of
scope by the design document (device query interface, waveguide eigenmode
solver, carrier-statistics closures, equilibrium residual/Jacobian assembly,
transcendental numerics) are passed in as explicit function parameters.
-/

/-- Names of the physical quantities stored by `LaserData` (the keys of the
`unit_values` dictionary in `laser_data.py`). -/
inductive Param where
  | Ev | Ec | Eg | Nd | Na | C_dop | Nc | Nv
  | mu_n | mu_p | tau_n | tau_p | B | Cn | Cp
  | eps | n_refr | ni | wg_mode | n0 | p0
  | psi_lcn | psi_eq | g0 | N_tr
  deriving DecidableEq

/-- Modelled from the spec: the fundamental-constants module (`constants.py`)
is not under src/; section 4.3 only says the scale factors derive from the
thermal energy, the elementary charge and the vacuum permittivity.  Boltzmann
constant, a concrete positive rational. -/
def constKb : ℚ := 8617 / 100000000

/-- Modelled from the spec: temperature used for the thermal voltage. -/
def constT : ℚ := 300

/-- Modelled from the spec: elementary charge. -/
def constQ : ℚ := 1602 / 10000000000000000000000

/-- Modelled from the spec: vacuum permittivity. -/
def constEps0 : ℚ := 8854 / 100000000000000000

/-- Modelled from the spec: speed of light (used for the group velocity). -/
def constC : ℚ := 29980000000

/-- Modelled from the spec: free-carrier absorption cross section, electrons. -/
def constFcaE : ℚ := 4 / 1000000000000000000

/-- Modelled from the spec: free-carrier absorption cross section, holes. -/
def constFcaH : ℚ := 12 / 1000000000000000000

namespace units

/-- Time scale, `units.t = 1e-9` in `units.py`. -/
def t : ℚ := 1 / 1000000000

/-- Energy scale, `units.E = const.kb * const.T`. -/
def E : ℚ := constKb * constT

/-- Voltage scale, `units.V = E / 1.0`. -/
def V : ℚ := E / 1

/-- Charge scale, `units.q = const.q`. -/
def q : ℚ := constQ

/-- Length scale, `units.x = q / (const.eps_0 * V)`. -/
def x : ℚ := constQ / (constEps0 * V)

/-- Density scale, `units.n = 1 / x**3`. -/
def n : ℚ := 1 / x ^ 3

/-- Mobility scale, `units.mu = x**2 / (V * t)`. -/
def mu : ℚ := x ^ 2 / (V * t)

end units

/-- The `unit_values` dictionary of `laser_data.py`: the scale factor
attached to each stored quantity. -/
def unit_values : Param → ℚ
  | .Ev => units.E
  | .Ec => units.E
  | .Eg => units.E
  | .Nd => units.n
  | .Na => units.n
  | .C_dop => units.n
  | .Nc => units.n
  | .Nv => units.n
  | .mu_n => units.mu
  | .mu_p => units.mu
  | .tau_n => units.t
  | .tau_p => units.t
  | .B => 1 / (units.n * units.t)
  | .Cn => 1 / (units.n ^ 2 * units.t)
  | .Cp => 1 / (units.n ^ 2 * units.t)
  | .eps => 1
  | .n_refr => 1
  | .ni => units.n
  | .wg_mode => 1 / units.x
  | .n0 => units.n
  | .p0 => units.n
  | .psi_lcn => units.V
  | .psi_eq => units.V
  | .g0 => 1 / units.x
  | .N_tr => units.n

/-- The list `input_params` of `laser_data.py`: quantities sampled from the
device at every mesh node. -/
def inputParams : List Param :=
  [.Ev, .Ec, .Nd, .Na, .Nc, .Nv, .mu_n, .mu_p, .tau_n, .tau_p,
   .B, .Cn, .Cp, .eps, .n_refr, .g0, .N_tr]

/-- The list `midp_params` of `laser_data.py`: quantities sampled at mesh
midpoints. -/
def midpParams : List Param := [.Ev, .Ec, .Nc, .Nv, .mu_n, .mu_p]

/-- The device query interface (`slice_1d.Slice`), an external collaborator:
per-position parameter lookup, owning-layer lookup, total thickness, the
layer-index list and the readiness flag. -/
structure Device where
  get_value : Param → ℚ → ℚ
  get_index : ℚ → ℤ
  thickness : ℚ
  inds : List ℤ
  ready : Bool

/-- External numeric primitives (`np.exp`, `np.sqrt`, `np.log`,
`scipy.interpolate.interp1d`): abstract functions supplied by the numerics
library.  `interp` builds an interpolant from nodes and values; `interp0` is
the variant with `fill_value=0` outside the sampled range. -/
structure NumLib where
  expf : ℚ → ℚ
  sqrtf : ℚ → ℚ
  logf : ℚ → ℚ
  interp : List ℚ → List ℚ → ℚ → ℚ
  interp0 : List ℚ → List ℚ → ℚ → ℚ

/-- The simulation state: the fields of the Python class `LaserData`. -/
@[ext]
structure LaserData where
  ar_ind : ℤ
  lam : ℚ
  L : ℚ
  w : ℚ
  R1 : ℚ
  R2 : ℚ
  ng : ℚ
  vg : ℚ
  alpha_i : ℚ
  alpha_m : ℚ
  beta_sp : ℚ
  x : List ℚ
  xm : List ℚ
  ar_ix : List Bool
  Vt : ℚ
  q : ℚ
  eps_0 : ℚ
  fca_e : ℚ
  fca_h : ℚ
  is_dimensionless : Bool
  solved_lcn : Bool
  solved_equilibrium : Bool
  values : Param → Option (List ℚ)
  midp_values : Param → Option (List ℚ)
  n_eff : ℚ
  Gamma_f : ℚ → ℚ
  Gamma_f_nd : ℚ → ℚ
  delta : List ℚ

/-- `np.arange(0, stop, step)`: the values `i * step` for
`0 ≤ i < ⌈stop / step⌉`. -/
def arange (stop step : ℚ) : List ℚ :=
  (List.range (Nat.ceil (stop / step))).map (fun i : ℕ => (i : ℚ) * step)

/-- `(x[1:] + x[:-1]) / 2`: pairwise midpoints of consecutive nodes. -/
def midpoints (x : List ℚ) : List ℚ :=
  List.zipWith (fun a b => (a + b) / 2) x x.tail

/-- The scaling applied by `LaserData.make_dimensionless`: every array and
every listed scalar is divided by its scale factor, the vacuum permittivity
becomes `1`, and the unit-mode flag is set. -/
def scaleDown (d : LaserData) : LaserData :=
  { d with
    x := d.x.map (fun v => v / units.x)
    xm := d.xm.map (fun v => v / units.x)
    values := fun p => (d.values p).map (List.map (fun v => v / unit_values p))
    midp_values := fun p => (d.midp_values p).map (List.map (fun v => v / unit_values p))
    L := d.L / units.x
    w := d.w / units.x
    alpha_i := d.alpha_i / (1 / units.x)
    alpha_m := d.alpha_m / (1 / units.x)
    vg := d.vg / (units.x / units.t)
    Vt := d.Vt / units.E
    q := d.q / units.q
    eps_0 := 1
    fca_e := d.fca_e / units.x ^ 2
    fca_h := d.fca_h / units.x ^ 2
    is_dimensionless := true }

/-- The scaling applied by `LaserData.original_units`: the exact
multiplicative inverse of `scaleDown`, with the vacuum permittivity restored
to its physical constant. -/
def scaleUp (d : LaserData) : LaserData :=
  { d with
    x := d.x.map (fun v => v * units.x)
    xm := d.xm.map (fun v => v * units.x)
    values := fun p => (d.values p).map (List.map (fun v => v * unit_values p))
    midp_values := fun p => (d.midp_values p).map (List.map (fun v => v * unit_values p))
    L := d.L * units.x
    w := d.w * units.x
    alpha_i := d.alpha_i * (1 / units.x)
    alpha_m := d.alpha_m * (1 / units.x)
    vg := d.vg * (units.x / units.t)
    Vt := d.Vt * units.E
    q := d.q * units.q
    eps_0 := constEps0
    fca_e := d.fca_e * units.x ^ 2
    fca_h := d.fca_h * units.x ^ 2
    is_dimensionless := false }

/-- `LaserData.make_dimensionless`: guarded by `assert not
self.is_dimensionless`; a failing assertion leaves the state untouched and
raises, modelled by `none`. -/
def make_dimensionless (d : LaserData) : Option LaserData :=
  if d.is_dimensionless then none else some (scaleDown d)

/-- `LaserData.original_units`: guarded by `assert self.is_dimensionless`. -/
def original_units (d : LaserData) : Option LaserData :=
  if d.is_dimensionless then some (scaleUp d) else none

/-- `LaserData.solve_lcn`: the external per-node solver `eq.Ef_lcn_fermi` is
abstracted as `ef` (it reads the doping, band-edge and effective-density
arrays and the thermal voltage from the state, plus the three numeric
arguments); the method stores its result as the node-aligned `psi_lcn` array
and sets the `solved_lcn` flag. -/
def solve_lcn (ef : ℕ → ℚ → ℚ → LaserData → List ℚ)
    (n_iter : ℕ) (lam delta_max : ℚ) (d : LaserData) : LaserData :=
  { d with
    values := fun p =>
      if p = Param.psi_lcn then some (ef n_iter lam delta_max d) else d.values p
    solved_lcn := true }

/-- Mean of absolute values, `np.mean(np.abs(dpsi))`. -/
def meanAbs (l : List ℚ) : ℚ :=
  (l.map (fun t => |t|)).sum / l.length

/-- `psi[1:-1] += lam * dpsi`: add the damped correction at interior nodes
only, keeping both boundary nodes fixed. -/
def updateInterior (lam : ℚ) (psi dpsi : List ℚ) : List ℚ :=
  psi.mapIdx (fun i p =>
    if 1 ≤ i ∧ i + 1 < psi.length then p + lam * dpsi.getD (i - 1) 0 else p)

/-- The potential before Newton iteration `n` of `solve_equilibrium`; the
correction `dpsi` returned by the banded solve on the assembled Jacobian and
residual (`eq.poisson_jac`, `eq.poisson_res`, `scipy.linalg.solve_banded`,
all external) is abstracted as `step` applied to the current potential. -/
def psiIter (step : List ℚ → List ℚ) (lam : ℚ) (psi0 : List ℚ) : ℕ → List ℚ
  | 0 => psi0
  | n + 1 => updateInterior lam (psiIter step lam psi0 n) (step (psiIter step lam psi0 n))

/-- The per-iteration convergence metrics `self.delta`: entry `i` is the mean
absolute correction computed during iteration `i`. -/
def deltaTrace (step : List ℚ → List ℚ) (lam : ℚ) (psi0 : List ℚ) (n : ℕ) : List ℚ :=
  (List.range n).map (fun i => meanAbs (step (psiIter step lam psi0 i)))

/-- The state after the entry phase of `solve_equilibrium`: the LCN solver is
invoked with its default arguments (`n_iter=20`, `lam=1.0`, `delta_max=1e-8`)
when it has not run yet. -/
def eqLcnState (ef : ℕ → ℚ → ℚ → LaserData → List ℚ) (d : LaserData) : LaserData :=
  if d.solved_lcn then d else solve_lcn ef 20 1 (1 / 100000000) d

/-- The initial guess of the Newton iteration: the stored node-aligned LCN
potential. -/
def eqInitGuess (ef : ℕ → ℚ → ℚ → LaserData → List ℚ) (d : LaserData) : List ℚ :=
  ((eqLcnState ef d).values Param.psi_lcn).getD []

/-- `LaserData.solve_equilibrium`: run the LCN solver if needed, perform
exactly `n_iter` damped Newton iterations recording every correction
magnitude, then accept only when the final correction is below `delta_max`
(`assert self.delta[-1] < delta_max`).  The carrier-statistics closures
`cc.n(psi, 0, Nc, Ec, Vt)` and `cc.p(psi, 0, Nv, Ev, Vt)` are abstracted as
`ccn` and `ccp`.  A failing assertion raises, modelled by `Except.error`
carrying the state at the moment of the raise (the correction trace is
already stored then, the equilibrium fields are not). -/
def solve_equilibrium (ef : ℕ → ℚ → ℚ → LaserData → List ℚ)
    (step : List ℚ → List ℚ) (ccn ccp : List ℚ → List ℚ)
    (n_iter : ℕ) (lam delta_max : ℚ) (d : LaserData) :
    Except LaserData LaserData :=
  let d1 := eqLcnState ef d
  let psi0 := eqInitGuess ef d
  let dl := deltaTrace step lam psi0 n_iter
  let psi := psiIter step lam psi0 n_iter
  let d2 := { d1 with delta := dl }
  match dl.getLast? with
  | none => Except.error d2
  | some v =>
    if v < delta_max then
      Except.ok { d2 with
        values := fun p =>
          if p = Param.psi_eq then some psi
          else if p = Param.n0 then some (ccn psi)
          else if p = Param.p0 then some (ccp psi)
          else d2.values p
        solved_equilibrium := true }
    else Except.error d2

/-- The state reached by a call of `solve_equilibrium`, whether it returns
normally or raises. -/
def stateOf (e : Except LaserData LaserData) : LaserData :=
  match e with
  | Except.ok d => d
  | Except.error d => d

/-- Node sampling: the array of `device.get_value(p, xi)` over the mesh. -/
def nodeVals (dev : Device) (x : List ℚ) (p : Param) : List ℚ :=
  x.map (dev.get_value p)

/-- `LaserData._calculate_values`, node part: the input parameters are
sampled at every node, then the derived quantities are added: the bandgap
`Eg = Ec - Ev`, the net doping `C_dop = Nd - Na` and the intrinsic
concentration `ni = sqrt(Nc * Nv) * exp(-Eg / (2 * Vt))`. -/
def calcNodeValues (nl : NumLib) (dev : Device) (x : List ℚ) (Vt : ℚ) :
    Param → Option (List ℚ) :=
  fun p =>
    if p ∈ inputParams then some (nodeVals dev x p)
    else if p = Param.Eg then
      some (List.zipWith (fun a b => a - b) (nodeVals dev x .Ec) (nodeVals dev x .Ev))
    else if p = Param.C_dop then
      some (List.zipWith (fun a b => a - b) (nodeVals dev x .Nd) (nodeVals dev x .Na))
    else if p = Param.ni then
      some (List.zipWith (fun s e => nl.sqrtf s * nl.expf e)
        (List.zipWith (fun a b => a * b) (nodeVals dev x .Nc) (nodeVals dev x .Nv))
        ((List.zipWith (fun a b => a - b) (nodeVals dev x .Ec) (nodeVals dev x .Ev)).map
          (fun g => -g / (2 * Vt))))
    else none

/-- `LaserData._calculate_values`, midpoint part. -/
def calcMidpValues (dev : Device) (xm : List ℚ) : Param → Option (List ℚ) :=
  fun p => if p ∈ midpParams then some (xm.map (dev.get_value p)) else none

/-- The Gaussian smoothing kernel defined inside `generate_nonuniform_mesh`:
`gauss(x, mu, sigma) = exp(-(x - mu)**2 / (2 * sigma**2))`. -/
def gauss (expf : ℚ → ℚ) (x mu sigma : ℚ) : ℚ :=
  expf (-(x - mu) ^ 2 / (2 * sigma ^ 2))

/-- The boundary extension of the field array in `generate_nonuniform_mesh`:
a literal boundary value is used when given, otherwise the field's edge value
is repeated. -/
def extendField (y : List ℚ) (y0 yn : Option ℚ) : List ℚ :=
  (y0.getD (y.headD 0)) :: y ++ [yn.getD (y.getLastD 0)]

/-- The normalized smoothed-gradient interpolant `fg_fun` built by
`generate_nonuniform_mesh`: the absolute two-point difference of the extended
field, smoothed against the original mesh by the Gaussian kernel, normalized
by its own maximum and handed to the interpolation routine. -/
def meshFgFun (nl : NumLib) (param : Param) (y0 yn : Option ℚ) (sigma : ℚ)
    (d : LaserData) : ℚ → ℚ :=
  let x := d.x
  let y := (d.values param).getD []
  let y_ext := extendField y y0 yn
  let f := List.zipWith (fun a b => |a - b|) (y_ext.drop 2) y_ext
  let fg := x.map (fun xi =>
    (List.zipWith (fun fj xj => fj * gauss nl.expf xj xi sigma) f x).sum)
  let m := fg.foldr max (fg.headD 0)
  nl.interp x (fg.map (fun v => v / m))

/-- The local spacing chosen by the mesh growth loop:
`step_min + (step_max - step_min) * (1 - fg_fun(xi))`. -/
def stepSize (smin smax : ℚ) (g : ℚ → ℚ) (xi : ℚ) : ℚ :=
  smin + (smax - smin) * (1 - g xi)

/-- The mesh growth loop `while xi <= x[-1]: append xi; xi += step`：fuelled
recursion; with enough fuel it terminates exactly when the accumulated
position first passes the bound. -/
def walk (smin smax : ℚ) (g : ℚ → ℚ) (bound : ℚ) : ℕ → ℚ → List ℚ
  | 0, _ => []
  | fuel + 1, xi =>
    if xi ≤ bound then xi :: walk smin smax g bound fuel (xi + stepSize smin smax g xi)
    else []

/-- Fuel sufficient for the growth loop to terminate on the bound check. -/
def walkFuel (bound smin : ℚ) : ℕ := Nat.floor (bound / smin) + 2

/-- `LaserData.generate_nonuniform_mesh`: grow the new mesh from `0` against
the last node of the current mesh, recompute the midpoints, re-sample every
node and midpoint value, re-interpolate the optical mode in the current unit
system, and rebuild the active-region mask. -/
def generate_nonuniform_mesh (nl : NumLib) (dev : Device) (param : Param)
    (smin smax sigma : ℚ) (y0 yn : Option ℚ) (d : LaserData) : LaserData :=
  let bound := d.x.getLastD 0
  let fgf := meshFgFun nl param y0 yn sigma d
  let newx := walk smin smax fgf bound (walkFuel bound smin) 0
  let newxm := midpoints newx
  let G := if d.is_dimensionless then d.Gamma_f_nd else d.Gamma_f
  { d with
    x := newx
    xm := newxm
    values := fun p =>
      if p = Param.wg_mode then some (newx.map G)
      else calcNodeValues nl dev newx d.Vt p
    midp_values := calcMidpValues dev newxm
    ar_ix := newx.map (fun xi => dev.get_index xi == d.ar_ind) }

/-- First index attaining the maximum of a list (`np.argmax`). -/
def argmaxIdx : List ℚ → ℕ
  | [] => 0
  | [_] => 0
  | a :: b :: t =>
    if a < (b :: t).getD (argmaxIdx (b :: t)) 0 then argmaxIdx (b :: t) + 1 else 0

/-- The node positions handed to the waveguide solver: the mesh, with the
nodes owned by the outermost two layers removed when `remove_cl` is set. -/
def wgPositions (dev : Device) (remove_cl : Bool) (x : List ℚ) : List ℚ :=
  if remove_cl then
    x.filter (fun xi =>
      !(dev.get_index xi == dev.inds.headD 0 || dev.get_index xi == dev.inds.getLastD 0))
  else x

/-- The discrete active-region overlap of one candidate mode:
`(mode * step)[ix].sum()`. -/
def overlap (step : ℚ) (ix : List Bool) (mode : List ℚ) : ℚ :=
  (List.zipWith (fun m b => if b then m * step else 0) mode ix).sum

/-- The overlap integrals `gammas` computed at construction, one per
candidate mode returned by the external waveguide solver. -/
def wgGammas (solveWg : List ℚ → List ℚ → ℚ → ℕ → List ℚ × List (List ℚ))
    (dev : Device) (ar_ind : ℤ) (lam step : ℚ) (n_modes : ℕ) (remove_cl : Bool)
    (x : List ℚ) : List ℚ :=
  let xw := wgPositions dev remove_cl x
  let modes := (solveWg xw (xw.map (dev.get_value Param.n_refr)) lam n_modes).2
  let ixw := xw.map (fun xi => dev.get_index xi == ar_ind)
  (List.range n_modes).map (fun i => overlap step ixw (modes.getD i []))

/-- `LaserData.__init__`: uniform mesh, parameter sampling, constants and
flags, the waveguide solve and the selection of the mode with the largest
active-region overlap.  The source's two construction-time assertions
(`device.ready` and the presence of every required input parameter) are
configuration preconditions of this function.  `solveWg` abstracts the
external `waveguide.solve_wg`. -/
def LaserData.init (nl : NumLib)
    (solveWg : List ℚ → List ℚ → ℚ → ℕ → List ℚ × List (List ℚ))
    (dev : Device) (ar_ind : ℤ)
    (lam L w R1 R2 ng alpha_i beta_sp step : ℚ)
    (n_modes : ℕ) (remove_cl : Bool) : LaserData :=
  let x := arange dev.thickness step
  let Vt := constKb * constT
  let xw := wgPositions dev remove_cl x
  let wgOut := solveWg xw (xw.map (dev.get_value Param.n_refr)) lam n_modes
  let gammas := wgGammas solveWg dev ar_ind lam step n_modes remove_cl x
  let i := argmaxIdx gammas
  let mode := wgOut.2.getD i []
  { ar_ind := ar_ind
    lam := lam
    L := L
    w := w
    R1 := R1
    R2 := R2
    ng := ng
    vg := constC / ng
    alpha_i := alpha_i
    alpha_m := 1 / (2 * L) * nl.logf (1 / (R1 * R2))
    beta_sp := beta_sp
    x := x
    xm := midpoints x
    ar_ix := x.map (fun xi => dev.get_index xi == ar_ind)
    Vt := Vt
    q := constQ
    eps_0 := constEps0
    fca_e := constFcaE
    fca_h := constFcaH
    is_dimensionless := false
    solved_lcn := false
    solved_equilibrium := false
    values := fun p =>
      if p = Param.wg_mode then some mode
      else calcNodeValues nl dev x Vt p
    midp_values := calcMidpValues dev (midpoints x)
    n_eff := wgOut.1.getD i 0
    Gamma_f := nl.interp0 xw mode
    Gamma_f_nd := nl.interp0 (xw.map (fun v => v / units.x)) (mode.map (fun v => v * units.x))
    delta := [] }

namespace units

lemma t_pos : 0 < t := by norm_num [t]

lemma E_pos : 0 < E := by norm_num [E, constKb, constT]

lemma V_pos : 0 < V := by norm_num [V, E, constKb, constT]

lemma q_pos : 0 < q := by norm_num [q, constQ]

lemma x_pos : 0 < x := by
  unfold x
  have h1 : 0 < constQ := by norm_num [constQ]
  have h2 : 0 < constEps0 := by norm_num [constEps0]
  exact div_pos h1 (mul_pos h2 V_pos)

lemma n_pos : 0 < n := by
  unfold n
  exact one_div_pos.mpr (pow_pos x_pos 3)

lemma mu_pos : 0 < mu := by
  unfold mu
  exact div_pos (pow_pos x_pos 2) (mul_pos V_pos t_pos)

end units

lemma unit_values_pos (p : Param) : 0 < unit_values p := by
  cases p <;> simp only [unit_values] <;>
    first
    | exact units.E_pos
    | exact units.n_pos
    | exact units.mu_pos
    | exact units.t_pos
    | exact units.V_pos
    | exact units.q_pos
    | exact one_pos
    | exact one_div_pos.mpr (mul_pos units.n_pos units.t_pos)
    | exact one_div_pos.mpr (mul_pos (pow_pos units.n_pos 2) units.t_pos)
    | exact one_div_pos.mpr units.x_pos

lemma unit_values_ne (p : Param) : unit_values p ≠ 0 :=
  ne_of_gt (unit_values_pos p)

lemma div_mul_list (u : ℚ) (hu : u ≠ 0) (l : List ℚ) :
    (l.map (fun v => v / u)).map (fun v => v * u) = l := by
  induction l with
  | nil => rfl
  | cons a t ih => simp [ih, div_mul_cancel₀ a hu]

lemma div_mul_opt (u : ℚ) (hu : u ≠ 0) (o : Option (List ℚ)) :
    (o.map (List.map (fun v => v / u))).map (List.map (fun v => v * u)) = o := by
  cases o with
  | none => rfl
  | some l =>
    show some ((l.map (fun v => v / u)).map (fun v => v * u)) = some l
    rw [div_mul_list u hu]

lemma scaleUp_scaleDown (d : LaserData) (h : d.is_dimensionless = false)
    (he : d.eps_0 = constEps0) : scaleUp (scaleDown d) = d := by
  have hx := ne_of_gt units.x_pos
  have ht := ne_of_gt units.t_pos
  have hE := ne_of_gt units.E_pos
  have hq := ne_of_gt units.q_pos
  unfold scaleUp scaleDown
  ext1 <;> simp only
  case x => exact div_mul_list units.x hx d.x
  case xm => exact div_mul_list units.x hx d.xm
  case values =>
    funext p
    exact div_mul_opt (unit_values p) (unit_values_ne p) (d.values p)
  case midp_values =>
    funext p
    exact div_mul_opt (unit_values p) (unit_values_ne p) (d.midp_values p)
  case L => exact div_mul_cancel₀ d.L hx
  case w => exact div_mul_cancel₀ d.w hx
  case alpha_i => exact div_mul_cancel₀ d.alpha_i (one_div_ne_zero hx)
  case alpha_m => exact div_mul_cancel₀ d.alpha_m (one_div_ne_zero hx)
  case vg => exact div_mul_cancel₀ d.vg (div_ne_zero hx ht)
  case Vt => exact div_mul_cancel₀ d.Vt hE
  case q => exact div_mul_cancel₀ d.q hq
  case eps_0 => exact he.symm
  case fca_e => exact div_mul_cancel₀ d.fca_e (pow_ne_zero 2 hx)
  case fca_h => exact div_mul_cancel₀ d.fca_h (pow_ne_zero 2 hx)
  case is_dimensionless => exact h.symm

/-- Claim C1: for every state in physical units (mode flag clear, vacuum
permittivity at its physical constant), converting to dimensionless units and
back reproduces every stored array, every parameter entry and every listed
scalar exactly, and leaves the unit-mode flag at physical. -/
theorem claim_C1_scaling_round_trip (d : LaserData)
    (h : d.is_dimensionless = false) (he : d.eps_0 = constEps0) :
    ∃ d2, make_dimensionless d = some d2 ∧ d2.is_dimensionless = true ∧
      original_units d2 = some d ∧ d.is_dimensionless = false := by
  refine ⟨scaleDown d, ?_, rfl, ?_, h⟩
  · unfold make_dimensionless
    rw [h]
    simp
  · unfold original_units
    have : (scaleDown d).is_dimensionless = true := rfl
    rw [this]
    simp [scaleUp_scaleDown d h he]

/-- A sample state used to exercise the theorems on concrete input. -/
def sampleState : LaserData :=
  { ar_ind := 3
    lam := 87 / 100000
    L := 1 / 5
    w := 1 / 100
    R1 := 3 / 10
    R2 := 3 / 10
    ng := 19 / 5
    vg := constC / (19 / 5)
    alpha_i := 1
    alpha_m := 4
    beta_sp := 1 / 100000
    x := [0, 1 / 2, 1]
    xm := [1 / 4, 3 / 4]
    ar_ix := [false, true, false]
    Vt := constKb * constT
    q := constQ
    eps_0 := constEps0
    fca_e := constFcaE
    fca_h := constFcaH
    is_dimensionless := false
    solved_lcn := false
    solved_equilibrium := false
    values := fun p => if p = Param.Ev then some [0, 1, 2] else none
    midp_values := fun _ => none
    n_eff := 7 / 2
    Gamma_f := fun _ => 0
    Gamma_f_nd := fun _ => 0
    delta := [] }

theorem claim_C1_scaling_round_trip_witness :
    sampleState.is_dimensionless = false ∧ sampleState.eps_0 = constEps0 ∧
      ∃ d2, make_dimensionless sampleState = some d2 ∧
        d2.is_dimensionless = true ∧ original_units d2 = some sampleState ∧
        sampleState.is_dimensionless = false :=
  ⟨rfl, rfl, claim_C1_scaling_round_trip sampleState rfl rfl⟩

/-- Claim C6: calling the dimensionless converter on a state that is already
dimensionless fails the mode-guard assertion, and calling the physical
converter on a state already in physical units fails likewise; the failing
call produces no rescaled state. -/
theorem claim_C6_mode_guard (d : LaserData) :
    (d.is_dimensionless = true → make_dimensionless d = none) ∧
      (d.is_dimensionless = false → original_units d = none) := by
  constructor
  · intro h
    unfold make_dimensionless
    rw [h]
    simp
  · intro h
    unfold original_units
    rw [h]
    simp

theorem claim_C6_mode_guard_witness :
    make_dimensionless (scaleDown sampleState) = none ∧
      original_units sampleState = none :=
  ⟨(claim_C6_mode_guard (scaleDown sampleState)).1 rfl,
   (claim_C6_mode_guard sampleState).2 rfl⟩

/-- Claim C10: a call of the LCN solver changes only the node-aligned
`psi_lcn` entry of the parameter map and the `solved_lcn` flag; the mesh, the
midpoints, every other node-aligned and midpoint-aligned array, the
active-region mask, the unit-mode flag, the equilibrium flag and every scalar
laser property are unchanged. -/
theorem claim_C10_lcn_frame (ef : ℕ → ℚ → ℚ → LaserData → List ℚ)
    (n_iter : ℕ) (lam delta_max : ℚ) (d : LaserData) :
    (solve_lcn ef n_iter lam delta_max d).x = d.x ∧
    (solve_lcn ef n_iter lam delta_max d).xm = d.xm ∧
    (∀ p, p ≠ Param.psi_lcn →
      (solve_lcn ef n_iter lam delta_max d).values p = d.values p) ∧
    (solve_lcn ef n_iter lam delta_max d).values Param.psi_lcn
      = some (ef n_iter lam delta_max d) ∧
    (solve_lcn ef n_iter lam delta_max d).midp_values = d.midp_values ∧
    (solve_lcn ef n_iter lam delta_max d).ar_ix = d.ar_ix ∧
    (solve_lcn ef n_iter lam delta_max d).is_dimensionless = d.is_dimensionless ∧
    (solve_lcn ef n_iter lam delta_max d).solved_equilibrium = d.solved_equilibrium ∧
    (solve_lcn ef n_iter lam delta_max d).solved_lcn = true ∧
    (solve_lcn ef n_iter lam delta_max d).L = d.L ∧
    (solve_lcn ef n_iter lam delta_max d).w = d.w ∧
    (solve_lcn ef n_iter lam delta_max d).R1 = d.R1 ∧
    (solve_lcn ef n_iter lam delta_max d).R2 = d.R2 ∧
    (solve_lcn ef n_iter lam delta_max d).ng = d.ng ∧
    (solve_lcn ef n_iter lam delta_max d).vg = d.vg ∧
    (solve_lcn ef n_iter lam delta_max d).alpha_i = d.alpha_i ∧
    (solve_lcn ef n_iter lam delta_max d).alpha_m = d.alpha_m ∧
    (solve_lcn ef n_iter lam delta_max d).beta_sp = d.beta_sp ∧
    (solve_lcn ef n_iter lam delta_max d).Vt = d.Vt ∧
    (solve_lcn ef n_iter lam delta_max d).q = d.q ∧
    (solve_lcn ef n_iter lam delta_max d).eps_0 = d.eps_0 ∧
    (solve_lcn ef n_iter lam delta_max d).fca_e = d.fca_e ∧
    (solve_lcn ef n_iter lam delta_max d).fca_h = d.fca_h ∧
    (solve_lcn ef n_iter lam delta_max d).n_eff = d.n_eff ∧
    (solve_lcn ef n_iter lam delta_max d).lam = d.lam ∧
    (solve_lcn ef n_iter lam delta_max d).ar_ind = d.ar_ind := by
  refine ⟨rfl, rfl, ?_, ?_, rfl, rfl, rfl, rfl, rfl, rfl, rfl, rfl, rfl, rfl,
    rfl, rfl, rfl, rfl, rfl, rfl, rfl, rfl, rfl, rfl, rfl, rfl⟩
  · intro p hp
    simp only [solve_lcn, if_neg hp]
  · simp [solve_lcn]

theorem claim_C10_lcn_frame_witness :
    (solve_lcn (fun _ _ _ _ => [1]) 20 1 (1 / 100000000) sampleState).values Param.Ev
        = sampleState.values Param.Ev ∧
      (solve_lcn (fun _ _ _ _ => [1]) 20 1 (1 / 100000000) sampleState).x
        = sampleState.x :=
  ⟨(claim_C10_lcn_frame (fun _ _ _ _ => [1]) 20 1 (1 / 100000000) sampleState).2.2.1
      Param.Ev (by decide),
   (claim_C10_lcn_frame (fun _ _ _ _ => [1]) 20 1 (1 / 100000000) sampleState).1⟩

lemma getLast?_eq_getLastD {l : List ℚ} (h : l ≠ []) :
    l.getLast? = some (l.getLastD 0) := by
  induction l with
  | nil => exact absurd rfl h
  | cons a t ih =>
    cases t with
    | nil => rfl
    | cons b t2 =>
      rw [List.getLast?_cons_cons, ih (by simp)]
      simp [List.getLastD_cons]

lemma deltaTrace_length (step : List ℚ → List ℚ) (lam : ℚ) (psi0 : List ℚ)
    (n : ℕ) : (deltaTrace step lam psi0 n).length = n := by
  simp [deltaTrace]

lemma deltaTrace_getD (step : List ℚ → List ℚ) (lam : ℚ) (psi0 : List ℚ)
    {n i : ℕ} (h : i < n) :
    (deltaTrace step lam psi0 n).getD i 0 = meanAbs (step (psiIter step lam psi0 i)) := by
  unfold deltaTrace
  rw [List.getD_eq_getElem _ _ (by simpa using h)]
  simp

lemma eqLcnState_values_ne (ef : ℕ → ℚ → ℚ → LaserData → List ℚ)
    (d : LaserData) {p : Param} (hp : p ≠ Param.psi_lcn) :
    (eqLcnState ef d).values p = d.values p := by
  unfold eqLcnState
  split
  · rfl
  · simp only [solve_lcn, if_neg hp]

lemma eqLcnState_solved_equilibrium (ef : ℕ → ℚ → ℚ → LaserData → List ℚ)
    (d : LaserData) : (eqLcnState ef d).solved_equilibrium = d.solved_equilibrium := by
  unfold eqLcnState
  split <;> rfl

lemma solve_eq_delta (ef : ℕ → ℚ → ℚ → LaserData → List ℚ)
    (step : List ℚ → List ℚ) (ccn ccp : List ℚ → List ℚ)
    (n_iter : ℕ) (lam dm : ℚ) (d : LaserData) :
    (stateOf (solve_equilibrium ef step ccn ccp n_iter lam dm d)).delta
      = deltaTrace step lam (eqInitGuess ef d) n_iter := by
  unfold solve_equilibrium
  dsimp only
  split
  · rfl
  · split <;> rfl

lemma solve_eq_values_frame (ef : ℕ → ℚ → ℚ → LaserData → List ℚ)
    (step : List ℚ → List ℚ) (ccn ccp : List ℚ → List ℚ)
    (n_iter : ℕ) (lam dm : ℚ) (d : LaserData) {p : Param}
    (h1 : p ≠ Param.psi_eq) (h2 : p ≠ Param.n0) (h3 : p ≠ Param.p0) :
    (stateOf (solve_equilibrium ef step ccn ccp n_iter lam dm d)).values p
      = (eqLcnState ef d).values p := by
  unfold solve_equilibrium
  dsimp only
  split
  · rfl
  · split
    · simp only [stateOf, if_neg h1, if_neg h2, if_neg h3]
    · rfl

/-- Claim C7: when the LCN solver has not been run, `solve_equilibrium` runs
it with its default arguments (`n_iter=20`, `lam=1.0`, `delta_max=1e-8`) and
its output both becomes the stored `psi_lcn` array and feeds the Newton
iteration as initial guess; when it has been run, the stored `psi_lcn` array
is used as the initial guess and survives the call unmodified. -/
theorem claim_C7_lcn_entry (ef : ℕ → ℚ → ℚ → LaserData → List ℚ)
    (step : List ℚ → List ℚ) (ccn ccp : List ℚ → List ℚ)
    (n_iter : ℕ) (lam dm : ℚ) (d : LaserData) :
    (d.solved_lcn = false →
      (stateOf (solve_equilibrium ef step ccn ccp n_iter lam dm d)).values Param.psi_lcn
          = some (ef 20 1 (1 / 100000000) d) ∧
        eqInitGuess ef d = ef 20 1 (1 / 100000000) d ∧
        (stateOf (solve_equilibrium ef step ccn ccp n_iter lam dm d)).delta
          = deltaTrace step lam (ef 20 1 (1 / 100000000) d) n_iter) ∧
    (d.solved_lcn = true →
      (stateOf (solve_equilibrium ef step ccn ccp n_iter lam dm d)).values Param.psi_lcn
          = d.values Param.psi_lcn ∧
        eqInitGuess ef d = (d.values Param.psi_lcn).getD [] ∧
        (stateOf (solve_equilibrium ef step ccn ccp n_iter lam dm d)).delta
          = deltaTrace step lam ((d.values Param.psi_lcn).getD []) n_iter) := by
  have hfr := solve_eq_values_frame ef step ccn ccp n_iter lam dm d
    (p := Param.psi_lcn) (by decide) (by decide) (by decide)
  constructor
  · intro h
    have hlcn : eqLcnState ef d = solve_lcn ef 20 1 (1 / 100000000) d := by
      unfold eqLcnState
      rw [h]
      simp
    have hv : (eqLcnState ef d).values Param.psi_lcn = some (ef 20 1 (1 / 100000000) d) := by
      rw [hlcn]
      simp [solve_lcn]
    have hg : eqInitGuess ef d = ef 20 1 (1 / 100000000) d := by
      unfold eqInitGuess
      rw [hv]
      rfl
    exact ⟨hfr.trans hv, hg, (solve_eq_delta ef step ccn ccp n_iter lam dm d).trans
      (by rw [hg])⟩
  · intro h
    have hlcn : eqLcnState ef d = d := by
      unfold eqLcnState
      rw [h]
      simp
    have hg : eqInitGuess ef d = (d.values Param.psi_lcn).getD [] := by
      unfold eqInitGuess
      rw [hlcn]
    exact ⟨hfr.trans (by rw [hlcn]), hg,
      (solve_eq_delta ef step ccn ccp n_iter lam dm d).trans (by rw [hg])⟩

theorem claim_C7_lcn_entry_witness :
    sampleState.solved_lcn = false ∧
      (stateOf (solve_equilibrium (fun _ _ _ _ => [2]) (fun _ => [0]) id id
          1 1 1 sampleState)).values Param.psi_lcn = some [2] :=
  ⟨rfl, ((claim_C7_lcn_entry (fun _ _ _ _ => [2]) (fun _ => [0]) id id
      1 1 1 sampleState).1 rfl).1⟩

lemma deltaTrace_ne_nil (step : List ℚ → List ℚ) (lam : ℚ) (psi0 : List ℚ)
    {n : ℕ} (h : 1 ≤ n) : deltaTrace step lam psi0 n ≠ [] := by
  intro hc
  have := deltaTrace_length step lam psi0 n
  rw [hc] at this
  simp at this
  omega

/-- Claim C2: starting from a state with no equilibrium fields and the
equilibrium flag clear, if the final Newton iteration's mean absolute
correction is not below `delta_max` then `solve_equilibrium` raises, and the
state at the raise holds no equilibrium potential, no equilibrium electron
concentration, no equilibrium hole concentration, and the flag is still
clear; if it is below `delta_max`, all three fields are stored and the flag
is set. -/
theorem claim_C2_convergence_failure (ef : ℕ → ℚ → ℚ → LaserData → List ℚ)
    (step : List ℚ → List ℚ) (ccn ccp : List ℚ → List ℚ)
    (n_iter : ℕ) (lam dm : ℚ) (d : LaserData)
    (hpe : d.values Param.psi_eq = none) (hn0 : d.values Param.n0 = none)
    (hp0 : d.values Param.p0 = none) (hse : d.solved_equilibrium = false)
    (hn : 1 ≤ n_iter) :
    (¬ (deltaTrace step lam (eqInitGuess ef d) n_iter).getLastD 0 < dm →
      ∃ d2, solve_equilibrium ef step ccn ccp n_iter lam dm d = Except.error d2 ∧
        d2.values Param.psi_eq = none ∧ d2.values Param.n0 = none ∧
        d2.values Param.p0 = none ∧ d2.solved_equilibrium = false) ∧
    ((deltaTrace step lam (eqInitGuess ef d) n_iter).getLastD 0 < dm →
      ∃ d2, solve_equilibrium ef step ccn ccp n_iter lam dm d = Except.ok d2 ∧
        d2.values Param.psi_eq
            = some (psiIter step lam (eqInitGuess ef d) n_iter) ∧
        d2.values Param.n0 = some (ccn (psiIter step lam (eqInitGuess ef d) n_iter)) ∧
        d2.values Param.p0 = some (ccp (psiIter step lam (eqInitGuess ef d) n_iter)) ∧
        d2.solved_equilibrium = true) := by
  have hlast := getLast?_eq_getLastD (deltaTrace_ne_nil step lam (eqInitGuess ef d) hn)
  have hvpe : (eqLcnState ef d).values Param.psi_eq = none :=
    (eqLcnState_values_ne ef d (by decide)).trans hpe
  have hvn0 : (eqLcnState ef d).values Param.n0 = none :=
    (eqLcnState_values_ne ef d (by decide)).trans hn0
  have hvp0 : (eqLcnState ef d).values Param.p0 = none :=
    (eqLcnState_values_ne ef d (by decide)).trans hp0
  have hves : (eqLcnState ef d).solved_equilibrium = false :=
    (eqLcnState_solved_equilibrium ef d).trans hse
  constructor
  · intro hfail
    have herr : solve_equilibrium ef step ccn ccp n_iter lam dm d
        = Except.error { eqLcnState ef d with
            delta := deltaTrace step lam (eqInitGuess ef d) n_iter } := by
      unfold solve_equilibrium
      dsimp only
      rw [hlast]
      simp only [if_neg hfail]
    exact ⟨_, herr, hvpe, hvn0, hvp0, hves⟩
  · intro hok
    have hokk : solve_equilibrium ef step ccn ccp n_iter lam dm d
        = Except.ok { eqLcnState ef d with
            delta := deltaTrace step lam (eqInitGuess ef d) n_iter
            values := fun p =>
              if p = Param.psi_eq then
                some (psiIter step lam (eqInitGuess ef d) n_iter)
              else if p = Param.n0 then
                some (ccn (psiIter step lam (eqInitGuess ef d) n_iter))
              else if p = Param.p0 then
                some (ccp (psiIter step lam (eqInitGuess ef d) n_iter))
              else (eqLcnState ef d).values p
            solved_equilibrium := true } := by
      unfold solve_equilibrium
      dsimp only
      rw [hlast]
      simp only [if_pos hok]
    exact ⟨_, hokk, by simp, by simp, by simp, rfl⟩

theorem claim_C2_convergence_failure_witness :
    sampleState.values Param.psi_eq = none ∧ sampleState.solved_equilibrium = false ∧
      ∃ d2, solve_equilibrium (fun _ _ _ _ => [2]) (fun _ => [1]) id id
          1 1 1 sampleState = Except.error d2 ∧
        d2.values Param.psi_eq = none ∧ d2.values Param.n0 = none ∧
        d2.values Param.p0 = none ∧ d2.solved_equilibrium = false := by
  refine ⟨rfl, rfl, ?_⟩
  refine (claim_C2_convergence_failure (fun _ _ _ _ => [2]) (fun _ => [1]) id id
      1 1 1 sampleState rfl rfl rfl rfl (by decide)).1 ?_
  have : deltaTrace (fun _ => [1]) 1 (eqInitGuess (fun _ _ _ _ => [2]) sampleState) 1
      = [1] := by
    simp [deltaTrace, List.range_succ, meanAbs]
  rw [this]
  norm_num

/-- Claim C3: the Newton loop of `solve_equilibrium` performs exactly
`n_iter` iterations with no early exit, and whether the call returns or
raises, the state afterwards retains the full sequence of `n_iter`
per-iteration mean absolute correction magnitudes. -/
theorem claim_C3_full_trace (ef : ℕ → ℚ → ℚ → LaserData → List ℚ)
    (step : List ℚ → List ℚ) (ccn ccp : List ℚ → List ℚ)
    (n_iter : ℕ) (lam dm : ℚ) (d : LaserData) :
    (stateOf (solve_equilibrium ef step ccn ccp n_iter lam dm d)).delta
        = deltaTrace step lam (eqInitGuess ef d) n_iter ∧
      (stateOf (solve_equilibrium ef step ccn ccp n_iter lam dm d)).delta.length
        = n_iter ∧
      ∀ i, i < n_iter →
        (stateOf (solve_equilibrium ef step ccn ccp n_iter lam dm d)).delta.getD i 0
          = meanAbs (step (psiIter step lam (eqInitGuess ef d) i)) := by
  have hd := solve_eq_delta ef step ccn ccp n_iter lam dm d
  refine ⟨hd, ?_, ?_⟩
  · rw [hd]
    exact deltaTrace_length step lam (eqInitGuess ef d) n_iter
  · intro i hi
    rw [hd]
    exact deltaTrace_getD step lam (eqInitGuess ef d) hi

theorem claim_C3_full_trace_witness :
    (2 : ℕ) < 3 ∧
      (stateOf (solve_equilibrium (fun _ _ _ _ => [2]) (fun _ => [1]) id id
          3 1 1 sampleState)).delta.getD 2 0
        = meanAbs ((fun _ => ([1] : List ℚ))
            (psiIter (fun _ => [1]) 1 (eqInitGuess (fun _ _ _ _ => [2]) sampleState) 2)) :=
  ⟨by decide, (claim_C3_full_trace (fun _ _ _ _ => [2]) (fun _ => [1]) id id
      3 1 1 sampleState).2.2 2 (by decide)⟩

/-- Claim C9: in the smoothed-gradient computation the field array is
extended at each end by the literal boundary value when one is given, and by
repeating the field's edge value (first value on the left, last value on the
right) when none is given. -/
theorem claim_C9_boundary_extension (y : List ℚ) (y0 yn : Option ℚ)
    (hy : y ≠ []) :
    ((y0 = none → (extendField y y0 yn).headD 0 = y.headD 0) ∧
      (∀ v, y0 = some v → (extendField y y0 yn).headD 0 = v)) ∧
    ((yn = none → (extendField y y0 yn).getLastD 0 = y.getLastD 0) ∧
      (∀ v, yn = some v → (extendField y y0 yn).getLastD 0 = v)) ∧
    (extendField y y0 yn).tail.dropLast = y := by
  have hlast : (extendField y y0 yn).getLastD 0 = yn.getD (y.getLastD 0) := by
    unfold extendField
    have h1 : (y0.getD (y.headD 0)) :: y ++ [yn.getD (y.getLastD 0)]
        = ((y0.getD (y.headD 0)) :: y) ++ [yn.getD (y.getLastD 0)] := by
      simp
    rw [h1]
    have h2 := getLast?_eq_getLastD
      (l := ((y0.getD (y.headD 0)) :: y) ++ [yn.getD (y.getLastD 0)]) (by simp)
    rw [List.getLast?_concat] at h2
    exact (Option.some_injective _ h2.symm)
  refine ⟨⟨?_, ?_⟩, ⟨?_, ?_⟩, ?_⟩
  · intro h
    unfold extendField
    rw [h]
    rfl
  · intro v h
    unfold extendField
    rw [h]
    rfl
  · intro h
    rw [hlast, h]
    rfl
  · intro v h
    rw [hlast, h]
    rfl
  · unfold extendField
    simp

theorem claim_C9_boundary_extension_witness :
    ([3, 5] : List ℚ) ≠ [] ∧
      (extendField [3, 5] none none).headD 0 = ([3, 5] : List ℚ).headD 0 ∧
      (extendField [3, 5] (some 7) none).headD 0 = 7 ∧
      (extendField [3, 5] none none).getLastD 0 = ([3, 5] : List ℚ).getLastD 0 :=
  ⟨by decide,
   (claim_C9_boundary_extension [3, 5] none none (by decide)).1.1 rfl,
   (claim_C9_boundary_extension [3, 5] (some 7) none (by decide)).1.2 7 rfl,
   (claim_C9_boundary_extension [3, 5] none none (by decide)).2.1.1 rfl⟩

lemma argmaxIdx_lt_length (l : List ℚ) (h : l ≠ []) : argmaxIdx l < l.length := by
  induction l with
  | nil => exact absurd rfl h
  | cons a t ih =>
    cases t with
    | nil => simp [argmaxIdx]
    | cons b t2 =>
      simp only [argmaxIdx]
      split
      · have := ih (by simp)
        simpa using Nat.succ_lt_succ this
      · simp

lemma argmaxIdx_ge (l : List ℚ) :
    ∀ j, j < l.length → l.getD j 0 ≤ l.getD (argmaxIdx l) 0 := by
  induction l with
  | nil => intro j hj; simp at hj
  | cons a t ih =>
    cases t with
    | nil =>
      intro j hj
      have : j = 0 := by simpa using Nat.lt_one_iff.mp (by simpa using hj)
      subst this
      simp [argmaxIdx]
    | cons b t2 =>
      simp only [argmaxIdx]
      split
      · intro j hj
        rename_i hlt
        rw [List.getD_cons_succ]
        cases j with
        | zero => exact le_of_lt hlt
        | succ k =>
          rw [List.getD_cons_succ]
          exact ih k (by simpa using Nat.lt_of_succ_lt_succ hj)
      · intro j hj
        rename_i hge
        rw [List.getD_cons_zero]
        cases j with
        | zero => simp
        | succ k =>
          rw [List.getD_cons_succ]
          exact le_trans (ih k (by simpa using Nat.lt_of_succ_lt_succ hj))
            (not_lt.mp hge)

lemma argmaxIdx_first (l : List ℚ) :
    ∀ j, j < argmaxIdx l → l.getD j 0 < l.getD (argmaxIdx l) 0 := by
  induction l with
  | nil => intro j hj; simp [argmaxIdx] at hj
  | cons a t ih =>
    cases t with
    | nil => intro j hj; simp [argmaxIdx] at hj
    | cons b t2 =>
      simp only [argmaxIdx]
      split
      · intro j hj
        rename_i hlt
        rw [List.getD_cons_succ]
        cases j with
        | zero => exact hlt
        | succ k =>
          rw [List.getD_cons_succ]
          exact ih k (Nat.lt_of_succ_lt_succ hj)
      · intro j hj
        simp at hj

lemma wgGammas_length (solveWg : List ℚ → List ℚ → ℚ → ℕ → List ℚ × List (List ℚ))
    (dev : Device) (ar_ind : ℤ) (lam step : ℚ) (n_modes : ℕ) (remove_cl : Bool)
    (x : List ℚ) :
    (wgGammas solveWg dev ar_ind lam step n_modes remove_cl x).length = n_modes := by
  simp [wgGammas]

/-- Claim C5: the mode stored at construction is the one at the first index
attaining the maximum of the discrete active-region overlap integrals: its
overlap is at least the overlap of every other candidate mode returned by the
waveguide solver, and every earlier candidate has strictly smaller overlap. -/
theorem claim_C5_mode_selection (nl : NumLib)
    (swg : List ℚ → List ℚ → ℚ → ℕ → List ℚ × List (List ℚ))
    (dev : Device) (ar_ind : ℤ)
    (lam L w R1 R2 ng alpha_i beta_sp step : ℚ) (n_modes : ℕ) (rcl : Bool) :
    (LaserData.init nl swg dev ar_ind lam L w R1 R2 ng alpha_i beta_sp step
        n_modes rcl).values Param.wg_mode
      = some ((swg (wgPositions dev rcl (arange dev.thickness step))
            ((wgPositions dev rcl (arange dev.thickness step)).map
              (dev.get_value Param.n_refr)) lam n_modes).2.getD
          (argmaxIdx (wgGammas swg dev ar_ind lam step n_modes rcl
            (arange dev.thickness step))) []) ∧
    (∀ j, j < n_modes →
      (wgGammas swg dev ar_ind lam step n_modes rcl (arange dev.thickness step)).getD j 0
        ≤ (wgGammas swg dev ar_ind lam step n_modes rcl (arange dev.thickness step)).getD
            (argmaxIdx (wgGammas swg dev ar_ind lam step n_modes rcl
              (arange dev.thickness step))) 0) ∧
    (∀ j, j < argmaxIdx (wgGammas swg dev ar_ind lam step n_modes rcl
        (arange dev.thickness step)) →
      (wgGammas swg dev ar_ind lam step n_modes rcl (arange dev.thickness step)).getD j 0
        < (wgGammas swg dev ar_ind lam step n_modes rcl (arange dev.thickness step)).getD
            (argmaxIdx (wgGammas swg dev ar_ind lam step n_modes rcl
              (arange dev.thickness step))) 0) := by
  refine ⟨rfl, ?_, ?_⟩
  · intro j hj
    exact argmaxIdx_ge _ j (by
      rw [wgGammas_length]
      exact hj)
  · intro j hj
    exact argmaxIdx_first _ j hj

/-- A trivial numerics pack used to exercise the construction theorems. -/
def sampleNumLib : NumLib :=
  { expf := fun _ => 1
    sqrtf := fun v => v
    logf := fun _ => 0
    interp := fun _ _ _ => 0
    interp0 := fun _ _ _ => 0 }

/-- A two-layer sample device used to exercise the construction theorems. -/
def sampleDevice : Device :=
  { get_value := fun _ _ => 1
    get_index := fun _ => 0
    thickness := 2
    inds := [0]
    ready := true }

/-- A sample waveguide solver returning two candidate modes. -/
def sampleSolveWg : List ℚ → List ℚ → ℚ → ℕ → List ℚ × List (List ℚ) :=
  fun _ _ _ _ => ([1, 2], [[1, 1], [2, 2]])

theorem claim_C5_mode_selection_witness :
    (0 : ℕ) < 2 ∧
      (wgGammas sampleSolveWg sampleDevice 0 1 1 2 false
          (arange sampleDevice.thickness 1)).getD 0 0
        ≤ (wgGammas sampleSolveWg sampleDevice 0 1 1 2 false
            (arange sampleDevice.thickness 1)).getD
          (argmaxIdx (wgGammas sampleSolveWg sampleDevice 0 1 1 2 false
            (arange sampleDevice.thickness 1))) 0 :=
  ⟨by decide,
   (claim_C5_mode_selection sampleNumLib sampleSolveWg sampleDevice 0
      1 1 1 1 1 1 1 1 1 2 false).2.1 0 (by decide)⟩

lemma stepSize_ge (smin smax : ℚ) (g : ℚ → ℚ) (h1 : smin ≤ smax)
    (hg : ∀ t, 0 ≤ g t ∧ g t ≤ 1) (xi : ℚ) :
    smin ≤ stepSize smin smax g xi := by
  unfold stepSize
  nlinarith [(hg xi).1, (hg xi).2]

lemma walk_mem_le (smin smax : ℚ) (g : ℚ → ℚ) (bound : ℚ) :
    ∀ (fuel : ℕ) (xi z : ℚ), z ∈ walk smin smax g bound fuel xi → z ≤ bound := by
  intro fuel
  induction fuel with
  | zero => intro xi z hz; simp [walk] at hz
  | succ n ih =>
    intro xi z hz
    rw [walk] at hz
    by_cases hxi : xi ≤ bound
    · rw [if_pos hxi] at hz
      rcases List.mem_cons.mp hz with h | h
      · exact h ▸ hxi
      · exact ih _ z h
    · rw [if_neg hxi] at hz
      simp at hz

lemma walk_head (smin smax : ℚ) (g : ℚ → ℚ) (bound : ℚ) :
    ∀ (fuel : ℕ) (xi : ℚ), walk smin smax g bound fuel xi = [] ∨
      (walk smin smax g bound fuel xi).head? = some xi := by
  intro fuel xi
  cases fuel with
  | zero => exact Or.inl rfl
  | succ n =>
    rw [walk]
    by_cases hxi : xi ≤ bound
    · rw [if_pos hxi]
      exact Or.inr rfl
    · rw [if_neg hxi]
      exact Or.inl rfl

lemma walk_chain (smin smax : ℚ) (g : ℚ → ℚ) (bound : ℚ) :
    ∀ (fuel : ℕ) (xi : ℚ),
      List.Chain' (fun a b => b = a + stepSize smin smax g a)
        (walk smin smax g bound fuel xi) := by
  intro fuel
  induction fuel with
  | zero => intro xi; simp [walk]
  | succ n ih =>
    intro xi
    rw [walk]
    by_cases hxi : xi ≤ bound
    · rw [if_pos hxi]
      refine List.chain'_cons'.mpr ⟨?_, ih _⟩
      intro y hy
      rcases walk_head smin smax g bound n (xi + stepSize smin smax g xi) with h | h
      · rw [h] at hy
        simp at hy
      · rw [h] at hy
        simp at hy
        exact hy.symm
    · rw [if_neg hxi]
      simp

lemma getLastD_irrel {l : List ℚ} (h : l ≠ []) (a b : ℚ) :
    l.getLastD a = l.getLastD b := by
  induction l generalizing a b with
  | nil => exact absurd rfl h
  | cons c t ih =>
    cases t with
    | nil => rfl
    | cons e t2 =>
      rw [List.getLastD_cons]
      rw [show (c :: e :: t2).getLastD b = (e :: t2).getLastD c from
        List.getLastD_cons c b (e :: t2)]

lemma walk_complete (smin smax : ℚ) (g : ℚ → ℚ) (bound : ℚ)
    (h1 : smin ≤ smax) (hg : ∀ t, 0 ≤ g t ∧ g t ≤ 1) :
    ∀ (fuel : ℕ) (xi : ℚ), bound < xi + (fuel : ℚ) * smin →
      (walk smin smax g bound fuel xi = [] ∧ bound < xi) ∨
      (walk smin smax g bound fuel xi ≠ [] ∧
        bound < (walk smin smax g bound fuel xi).getLastD 0
          + stepSize smin smax g ((walk smin smax g bound fuel xi).getLastD 0)) := by
  intro fuel
  induction fuel with
  | zero =>
    intro xi hx
    left
    refine ⟨rfl, ?_⟩
    simpa using hx
  | succ n ih =>
    intro xi hx
    rw [walk]
    by_cases hxi : xi ≤ bound
    · rw [if_pos hxi]
      right
      have hstep := stepSize_ge smin smax g h1 hg xi
      have hx2 : bound < (xi + stepSize smin smax g xi) + (n : ℚ) * smin := by
        push_cast at hx
        linarith
      rcases ih (xi + stepSize smin smax g xi) hx2 with ⟨hW, hlt⟩ | ⟨hWne, hlt⟩
      · rw [hW]
        refine ⟨by simp, ?_⟩
        simpa using hlt
      · refine ⟨by simp, ?_⟩
        have hcons : (xi :: walk smin smax g bound n (xi + stepSize smin smax g xi)).getLastD 0
            = (walk smin smax g bound n (xi + stepSize smin smax g xi)).getLastD 0 := by
          rw [List.getLastD_cons]
          exact getLastD_irrel hWne xi 0
        rw [hcons]
        exact hlt
    · rw [if_neg hxi]
      exact Or.inl ⟨rfl, not_le.mp hxi⟩

lemma walkFuel_spec (bound smin : ℚ) (h0 : 0 < smin) :
    bound < 0 + (walkFuel bound smin : ℚ) * smin := by
  unfold walkFuel
  push_cast
  have h1 : bound / smin < (Nat.floor (bound / smin) : ℚ) + 1 :=
    Nat.lt_floor_add_one (bound / smin)
  have h2 : bound < ((Nat.floor (bound / smin) : ℚ) + 1) * smin := by
    rw [← div_lt_iff h0] at *
    linarith [h1]
  nlinarith [h2, h0, Nat.cast_nonneg (Nat.floor (bound / smin)) (α := ℚ)]

lemma walk_start (smin smax : ℚ) (g : ℚ → ℚ) (bound : ℚ) (fuel : ℕ)
    (hf : 1 ≤ fuel) (hb : 0 ≤ bound) :
    (walk smin smax g bound fuel 0).headD 1 = 0 ∧
      walk smin smax g bound fuel 0 ≠ [] := by
  cases fuel with
  | zero => omega
  | succ n =>
    rw [walk, if_pos hb]
    exact ⟨rfl, by simp⟩

lemma chain'_getD {S : ℚ → ℚ → Prop} {w : List ℚ} (h : List.Chain' S w) :
    ∀ i, i + 1 < w.length → S (w.getD i 0) (w.getD (i + 1) 0) := by
  intro i hi
  have h2 := List.chain'_iff_get.mp h i (by omega)
  rw [List.getD_eq_getElem _ _ (by omega), List.getD_eq_getElem _ _ hi]
  simpa [List.get_eq_getElem] using h2

/-- Claim C4: rebuilding the mesh adaptively with `0 < step_min ≤ step_max`
produces a mesh that starts at exactly `0`, is strictly increasing, whose
consecutive spacing at each point is
`step_min + (step_max - step_min) * (1 - g)` for `g` the normalized smoothed
gradient interpolated at the left point (hypothesis `hg` states that the
interpolated normalized gradient lies in `[0, 1]`, as linear interpolation of
max-normalized nonnegative data does), whose nodes never exceed the device
thickness, and whose growth loop stops exactly when the next accumulated
position would pass the bound (the last node of the previous mesh). -/
theorem claim_C4_adaptive_mesh (nl : NumLib) (dev : Device) (param : Param)
    (smin smax sigma : ℚ) (y0 yn : Option ℚ) (d : LaserData)
    (h0 : 0 < smin) (h1 : smin ≤ smax)
    (hg : ∀ t, 0 ≤ meshFgFun nl param y0 yn sigma d t ∧
      meshFgFun nl param y0 yn sigma d t ≤ 1)
    (hb0 : 0 ≤ d.x.getLastD 0) (hbt : d.x.getLastD 0 ≤ dev.thickness) :
    (generate_nonuniform_mesh nl dev param smin smax sigma y0 yn d).x.headD 1 = 0 ∧
    List.Chain' (fun a b => a < b)
      (generate_nonuniform_mesh nl dev param smin smax sigma y0 yn d).x ∧
    (∀ i, i + 1 < (generate_nonuniform_mesh nl dev param smin smax sigma y0 yn d).x.length →
      (generate_nonuniform_mesh nl dev param smin smax sigma y0 yn d).x.getD (i + 1) 0
        = (generate_nonuniform_mesh nl dev param smin smax sigma y0 yn d).x.getD i 0
          + (smin + (smax - smin) * (1 - meshFgFun nl param y0 yn sigma d
              ((generate_nonuniform_mesh nl dev param smin smax sigma y0 yn d).x.getD i 0)))) ∧
    (∀ z ∈ (generate_nonuniform_mesh nl dev param smin smax sigma y0 yn d).x,
      z ≤ dev.thickness) ∧
    d.x.getLastD 0
      < (generate_nonuniform_mesh nl dev param smin smax sigma y0 yn d).x.getLastD 0
        + stepSize smin smax (meshFgFun nl param y0 yn sigma d)
            ((generate_nonuniform_mesh nl dev param smin smax sigma y0 yn d).x.getLastD 0) := by
  have hx : (generate_nonuniform_mesh nl dev param smin smax sigma y0 yn d).x
      = walk smin smax (meshFgFun nl param y0 yn sigma d) (d.x.getLastD 0)
          (walkFuel (d.x.getLastD 0) smin) 0 := rfl
  have hfuel : 1 ≤ walkFuel (d.x.getLastD 0) smin := by
    unfold walkFuel
    omega
  have hstart := walk_start smin smax (meshFgFun nl param y0 yn sigma d)
    (d.x.getLastD 0) (walkFuel (d.x.getLastD 0) smin) hfuel hb0
  have hchain := walk_chain smin smax (meshFgFun nl param y0 yn sigma d)
    (d.x.getLastD 0) (walkFuel (d.x.getLastD 0) smin) 0
  refine ⟨?_, ?_, ?_, ?_, ?_⟩
  · rw [hx]
    exact hstart.1
  · rw [hx]
    refine hchain.imp ?_
    intro a b hab
    have := stepSize_ge smin smax (meshFgFun nl param y0 yn sigma d) h1 hg a
    rw [hab]
    linarith
  · rw [hx]
    intro i hi
    have := chain'_getD hchain i hi
    rw [this]
    rfl
  · rw [hx]
    intro z hz
    exact le_trans (walk_mem_le smin smax (meshFgFun nl param y0 yn sigma d)
      (d.x.getLastD 0) (walkFuel (d.x.getLastD 0) smin) 0 z hz) hbt
  · rw [hx]
    rcases walk_complete smin smax (meshFgFun nl param y0 yn sigma d)
        (d.x.getLastD 0) h1 hg (walkFuel (d.x.getLastD 0) smin) 0
        (walkFuel_spec (d.x.getLastD 0) smin h0) with ⟨hW, hlt⟩ | ⟨_, hlt⟩
    · exact absurd hlt (not_lt.mpr hb0)
    · exact hlt

theorem claim_C4_adaptive_mesh_witness :
    (0 : ℚ) < 1 / 2 ∧
      (generate_nonuniform_mesh sampleNumLib sampleDevice Param.Eg
          (1 / 2) 1 1 none none sampleState).x.headD 1 = 0 :=
  ⟨by norm_num,
   (claim_C4_adaptive_mesh sampleNumLib sampleDevice Param.Eg (1 / 2) 1 1
      none none sampleState (by norm_num) (by norm_num)
      (fun t => by
        have h : meshFgFun sampleNumLib Param.Eg none none 1 sampleState t = 0 := rfl
        rw [h]
        norm_num)
      (by norm_num [sampleState]) (by norm_num [sampleState, sampleDevice])).1⟩

/-- The midpoint invariant of the spec: one fewer midpoint than nodes, each
midpoint the arithmetic average of its two neighbours and strictly between
them. -/
def midpointInvariant (x xm : List ℚ) : Prop :=
  xm.length + 1 = x.length ∧
  ∀ i, i < xm.length →
    xm.getD i 0 = (x.getD i 0 + x.getD (i + 1) 0) / 2 ∧
    x.getD i 0 < xm.getD i 0 ∧ xm.getD i 0 < x.getD (i + 1) 0

lemma zipWith_getD (f : ℚ → ℚ → ℚ) :
    ∀ (l1 l2 : List ℚ) (i : ℕ), i < l1.length → i < l2.length →
      (List.zipWith f l1 l2).getD i 0 = f (l1.getD i 0) (l2.getD i 0) := by
  intro l1
  induction l1 with
  | nil => intro l2 i h1 h2; simp at h1
  | cons a t ih =>
    intro l2 i h1 h2
    cases l2 with
    | nil => simp at h2
    | cons b s =>
      cases i with
      | zero => rfl
      | succ k => exact ih s k (by simpa using h1) (by simpa using h2)

lemma tail_getD (x : List ℚ) (i : ℕ) : x.tail.getD i 0 = x.getD (i + 1) 0 := by
  cases x <;> rfl

lemma midpoints_length (x : List ℚ) (h : x ≠ []) :
    (midpoints x).length + 1 = x.length := by
  cases x with
  | nil => exact absurd rfl h
  | cons a t =>
    simp [midpoints]

lemma midpointInvariant_mk (x : List ℚ) (hne : x ≠ [])
    (hs : ∀ i, i + 1 < x.length → x.getD i 0 < x.getD (i + 1) 0) :
    midpointInvariant x (midpoints x) := by
  have hlen := midpoints_length x hne
  refine ⟨hlen, ?_⟩
  intro i hi
  have hi2 : i + 1 < x.length := by omega
  have hit : i < x.tail.length := by
    have := List.length_tail x
    omega
  have hgd : (midpoints x).getD i 0 = (x.getD i 0 + x.tail.getD i 0) / 2 :=
    zipWith_getD _ x x.tail i (by omega) hit
  rw [hgd, tail_getD]
  have hlt := hs i hi2
  exact ⟨rfl, by linarith, by linarith⟩

lemma arange_length (stop step : ℚ) :
    (arange stop step).length = Nat.ceil (stop / step) := by
  unfold arange
  rw [List.length_map, List.length_range]

lemma arange_getD (stop step : ℚ) (i : ℕ) (h : i < (arange stop step).length) :
    (arange stop step).getD i 0 = (i : ℚ) * step := by
  unfold arange at h ⊢
  rw [List.getD_eq_getElem _ _ h]
  rw [List.getElem_map, List.getElem_range]

lemma arange_ne_nil (stop step : ℚ) (hd : 0 < stop) (hs : 0 < step) :
    arange stop step ≠ [] := by
  have hp : 0 < Nat.ceil (stop / step) := Nat.ceil_pos.mpr (div_pos hd hs)
  have : 0 < (arange stop step).length := by
    rw [arange_length]
    exact hp
  exact List.length_pos.mp this

lemma arange_sorted (stop step : ℚ) (hs : 0 < step) :
    ∀ i, i + 1 < (arange stop step).length →
      (arange stop step).getD i 0 < (arange stop step).getD (i + 1) 0 := by
  intro i hi
  rw [arange_getD stop step i (by omega), arange_getD stop step (i + 1) hi]
  push_cast
  nlinarith [hs]

lemma getD_map_of_zero (f : ℚ → ℚ) (hf : f 0 = 0) :
    ∀ (l : List ℚ) (i : ℕ), (l.map f).getD i 0 = f (l.getD i 0) := by
  intro l
  induction l with
  | nil => intro i; simp [hf]
  | cons a t ih =>
    intro i
    cases i with
    | zero => rfl
    | succ k => exact ih k

lemma midpointInvariant_div (x xm : List ℚ) (u : ℚ) (hu : 0 < u)
    (h : midpointInvariant x xm) :
    midpointInvariant (x.map (fun v => v / u)) (xm.map (fun v => v / u)) := by
  obtain ⟨hlen, hmid⟩ := h
  refine ⟨by simpa using hlen, ?_⟩
  intro i hi
  rw [List.length_map] at hi
  obtain ⟨he, hl, hr⟩ := hmid i hi
  rw [getD_map_of_zero _ (zero_div u), getD_map_of_zero _ (zero_div u),
    getD_map_of_zero _ (zero_div u)]
  refine ⟨by rw [he]; ring, ?_, ?_⟩
  · rw [div_eq_mul_inv, div_eq_mul_inv]
    exact (mul_lt_mul_right (inv_pos.mpr hu)).mpr hl
  · rw [div_eq_mul_inv, div_eq_mul_inv]
    exact (mul_lt_mul_right (inv_pos.mpr hu)).mpr hr

lemma midpointInvariant_mul (x xm : List ℚ) (u : ℚ) (hu : 0 < u)
    (h : midpointInvariant x xm) :
    midpointInvariant (x.map (fun v => v * u)) (xm.map (fun v => v * u)) := by
  obtain ⟨hlen, hmid⟩ := h
  refine ⟨by simpa using hlen, ?_⟩
  intro i hi
  rw [List.length_map] at hi
  obtain ⟨he, hl, hr⟩ := hmid i hi
  rw [getD_map_of_zero _ (zero_mul u), getD_map_of_zero _ (zero_mul u),
    getD_map_of_zero _ (zero_mul u)]
  refine ⟨by rw [he]; ring, ?_, ?_⟩
  · exact (mul_lt_mul_right hu).mpr hl
  · exact (mul_lt_mul_right hu).mpr hr

/-- Claim C8: the midpoint invariant (one fewer midpoint than nodes, each
midpoint the average of its neighbours and strictly between them) holds after
construction with positive thickness and step, after every adaptive mesh
rebuild with `0 < step_min ≤ step_max` (with the interpolated normalized
gradient in `[0, 1]` and a nonnegative previous last node), and is preserved
by both unit conversions. -/
theorem claim_C8_midpoint_invariant :
    (∀ (nl : NumLib) (swg : List ℚ → List ℚ → ℚ → ℕ → List ℚ × List (List ℚ))
        (dev : Device) (ar_ind : ℤ)
        (lam L w R1 R2 ng alpha_i beta_sp step : ℚ) (n_modes : ℕ) (rcl : Bool),
      0 < dev.thickness → 0 < step →
      midpointInvariant
        (LaserData.init nl swg dev ar_ind lam L w R1 R2 ng alpha_i beta_sp step
          n_modes rcl).x
        (LaserData.init nl swg dev ar_ind lam L w R1 R2 ng alpha_i beta_sp step
          n_modes rcl).xm) ∧
    (∀ (nl : NumLib) (dev : Device) (param : Param) (smin smax sigma : ℚ)
        (y0 yn : Option ℚ) (d : LaserData),
      0 < smin → smin ≤ smax →
      (∀ t, 0 ≤ meshFgFun nl param y0 yn sigma d t ∧
        meshFgFun nl param y0 yn sigma d t ≤ 1) →
      0 ≤ d.x.getLastD 0 →
      midpointInvariant
        (generate_nonuniform_mesh nl dev param smin smax sigma y0 yn d).x
        (generate_nonuniform_mesh nl dev param smin smax sigma y0 yn d).xm) ∧
    (∀ d : LaserData, midpointInvariant d.x d.xm →
      (∀ d2, make_dimensionless d = some d2 → midpointInvariant d2.x d2.xm) ∧
      (∀ d2, original_units d = some d2 → midpointInvariant d2.x d2.xm)) := by
  refine ⟨?_, ?_, ?_⟩
  · intro nl swg dev ar_ind lam L w R1 R2 ng alpha_i beta_sp step n_modes rcl hd hs
    have hx : (LaserData.init nl swg dev ar_ind lam L w R1 R2 ng alpha_i beta_sp
        step n_modes rcl).x = arange dev.thickness step := rfl
    have hxm : (LaserData.init nl swg dev ar_ind lam L w R1 R2 ng alpha_i beta_sp
        step n_modes rcl).xm = midpoints (arange dev.thickness step) := rfl
    rw [hx, hxm]
    exact midpointInvariant_mk _ (arange_ne_nil dev.thickness step hd hs)
      (arange_sorted dev.thickness step hs)
  · intro nl dev param smin smax sigma y0 yn d h0 h1 hg hb0
    have hfuel : 1 ≤ walkFuel (d.x.getLastD 0) smin := by
      unfold walkFuel
      omega
    have hx : (generate_nonuniform_mesh nl dev param smin smax sigma y0 yn d).x
        = walk smin smax (meshFgFun nl param y0 yn sigma d) (d.x.getLastD 0)
            (walkFuel (d.x.getLastD 0) smin) 0 := rfl
    have hxm : (generate_nonuniform_mesh nl dev param smin smax sigma y0 yn d).xm
        = midpoints (walk smin smax (meshFgFun nl param y0 yn sigma d)
            (d.x.getLastD 0) (walkFuel (d.x.getLastD 0) smin) 0) := rfl
    rw [hx, hxm]
    have hchain := (walk_chain smin smax (meshFgFun nl param y0 yn sigma d)
        (d.x.getLastD 0) (walkFuel (d.x.getLastD 0) smin) 0).imp
      (S := fun a b => a < b) (by
        intro a b hab
        have := stepSize_ge smin smax (meshFgFun nl param y0 yn sigma d) h1 hg a
        rw [hab]
        linarith)
    exact midpointInvariant_mk _
      (walk_start smin smax (meshFgFun nl param y0 yn sigma d) (d.x.getLastD 0)
        (walkFuel (d.x.getLastD 0) smin) hfuel hb0).2
      (chain'_getD hchain)
  · intro d hinv
    constructor
    · intro d2 hd2
      unfold make_dimensionless at hd2
      by_cases hdim : d.is_dimensionless
      · rw [if_pos hdim] at hd2
        exact absurd hd2 (by simp)
      · rw [if_neg hdim] at hd2
        have hd2e : d2 = scaleDown d := (Option.some_injective _ hd2).symm
        subst hd2e
        exact midpointInvariant_div d.x d.xm units.x units.x_pos hinv
    · intro d2 hd2
      unfold original_units at hd2
      by_cases hdim : d.is_dimensionless
      · rw [if_pos hdim] at hd2
        have hd2e : d2 = scaleUp d := (Option.some_injective _ hd2).symm
        subst hd2e
        exact midpointInvariant_mul d.x d.xm units.x units.x_pos hinv
      · rw [if_neg hdim] at hd2
        exact absurd hd2 (by simp)

theorem claim_C8_midpoint_invariant_witness :
    (0 : ℚ) < sampleDevice.thickness ∧ (0 : ℚ) < 1 ∧
      midpointInvariant
        (LaserData.init sampleNumLib sampleSolveWg sampleDevice 0
          1 1 1 1 1 1 1 1 1 2 false).x
        (LaserData.init sampleNumLib sampleSolveWg sampleDevice 0
          1 1 1 1 1 1 1 1 1 2 false).xm ∧
      midpointInvariant sampleState.x sampleState.xm ∧
      (∀ d2, make_dimensionless sampleState = some d2 →
        midpointInvariant d2.x d2.xm) := by
  have hs : midpointInvariant sampleState.x sampleState.xm := by
    refine ⟨rfl, ?_⟩
    intro i hi
    have hi2 : i < 2 := by simpa [sampleState] using hi
    interval_cases i <;> refine ⟨by norm_num [sampleState], by norm_num [sampleState],
      by norm_num [sampleState]⟩
  refine ⟨by norm_num [sampleDevice], by norm_num, ?_, hs, ?_⟩
  · exact claim_C8_midpoint_invariant.1 sampleNumLib sampleSolveWg sampleDevice 0
      1 1 1 1 1 1 1 1 1 2 false (by norm_num [sampleDevice]) (by norm_num)
  · exact (claim_C8_midpoint_invariant.2.2 sampleState hs).1
